import Mathlib

/-!
# Verification of the lesson-services spaced-repetition and streak core

Shallow embedding of the algorithmic core of the `lesson-services` app:

* `SRCardService.update_card_after_review` and `SRReviewService.create_review`
  (`app/services/sr_card_service.py`, `app/services/sr_review_service.py`);
* `UserStreakService.check_and_update_streak`, `break_streak`,
  `recalculate_streak` (`app/services/user_streak_service.py`);
* `SRCardService.get_user_stats`.

Conventions of the embedding:

* Python `float` arithmetic on ease factors is modelled exactly over `ℚ`
  (all reachable ease factors are multiples of 1/100, where binary floating
  point and exact arithmetic agree after the code's `round(·, 2)` step).
* Python `round` is round-half-to-even (`rhe` below); `round(x, 2)` is
  `round2`.
* Calendar dates and timestamps are modelled as integer day numbers
  (proleptic Gregorian ordinals, as in Python's `date.toordinal`);
  `timedelta(days=k)` is `+ k`.
* Database rows are explicit values; the persisted-state sequence of
  `create_review` is modelled as the list of states at its commit points.
-/

/-- Round half to even on `ℚ`, the semantics of Python's builtin `round`
to an integer. -/
def rhe (q : ℚ) : ℤ :=
  let f := ⌊q⌋
  let r := q - f
  if r < 1/2 then f
  else if 1/2 < r then f + 1
  else if f % 2 = 0 then f else f + 1

/-- Python's `round(x, 2)`: round half to even at two decimal places. -/
def round2 (q : ℚ) : ℚ := (rhe (q * 100) : ℚ) / 100

/-- A spaced-repetition card row (`SRCard` in `progress_models.py`),
restricted to the scheduling fields the update rule reads and writes. -/
structure SRCard where
  ease_factor : ℚ
  interval_d : ℤ
  repetition : ℕ
  due_at : ℤ
  suspended : Bool
  deriving Repr, DecidableEq

/-- A fresh card as created by `SRCardService.create_card` at time `now`:
model defaults `ease_factor=2.5, interval_d=0, repetition=0,
due_at=now, suspended=false`. -/
def freshCard (now : ℤ) : SRCard :=
  { ease_factor := 5/2, interval_d := 0, repetition := 0
    due_at := now, suspended := false }

/-- `SRCardService.update_card_after_review`, the SM-2-derived update rule,
applied to a card found in the store.  `quality` is clamped to `[0,5]`;
the success branch computes the new interval from the *pre-update* ease
factor; the ease-factor adjustment runs in both branches and is floored at
1.3 after rounding to two decimals; `due_at` becomes `now + interval_d`
days and the card is unsuspended. -/
def update_card_after_review (card : SRCard) (quality : ℤ) (now : ℤ) : SRCard :=
  let q := max 0 (min 5 quality)
  let step : ℕ × ℤ :=
    if 3 ≤ q then
      let interval : ℤ :=
        if card.repetition = 0 then 1
        else if card.repetition = 1 then 6
        else max 1 (rhe (card.interval_d * card.ease_factor))
      (card.repetition + 1, interval)
    else (0, 0)
  let new_ef : ℚ :=
    card.ease_factor + (1/10 - (5 - q) * (2/25 + (5 - q) * (1/50)))
  { ease_factor := max (13/10) (round2 new_ef)
    interval_d := step.2
    repetition := step.1
    due_at := now + step.2
    suspended := false }

/-- A review-log row (`SRReview` in `progress_models.py`), restricted to the
audit fields. -/
structure SRReview where
  quality : ℤ
  prev_interval : ℤ
  new_interval : ℤ
  new_ef : ℚ
  reviewed_at : ℤ
  deriving Repr, DecidableEq

/-- `SRReviewService.create_review`, after the card for the learner-flashcard
pair has been resolved (or lazily created): validates the quality, captures
`prev_interval` before the mutation, applies the update rule, and builds the
log row from the updated card's fields. -/
def create_review (card : SRCard) (quality : ℤ) (now : ℤ) :
    Except String (SRCard × SRReview) :=
  if quality < 0 ∨ 5 < quality then
    .error "Quality must be between 0 and 5"
  else
    let prev_interval := card.interval_d
    let updated := update_card_after_review card quality now
    .ok (updated,
      { quality := quality
        prev_interval := prev_interval
        new_interval := updated.interval_d
        new_ef := updated.ease_factor
        reviewed_at := now })

/-- The persisted database state touched by `create_review`: the card row for
the learner-flashcard pair and the append-only review-log table. -/
structure PersistedState where
  card : SRCard
  reviews : List SRReview
  deriving Repr, DecidableEq

/-- The sequence of committed (durable) states produced by a successful
`SRReviewService.create_review` run, one entry per commit point, starting
from a store holding `card` and log rows `logs`:

1. `SRCardService.update_card_after_review` ends with `db.commit()`, making
   the card update durable while the log row does not exist yet;
2. the review row, added and only flushed in `create_review`, becomes durable
   with the `db.commit()` inside the first
   `DailyActivityService.increment_activity` call.

A failure between two commit points leaves the store at the earlier
committed state. -/
def create_review_commits (card : SRCard) (logs : List SRReview)
    (q now : ℤ) : List PersistedState :=
  let updated := update_card_after_review card q now
  let review : SRReview :=
    { quality := q
      prev_interval := card.interval_d
      new_interval := updated.interval_d
      new_ef := updated.ease_factor
      reviewed_at := now }
  [ { card := updated, reviews := logs },
    { card := updated, reviews := logs ++ [review] } ]

/-- A streak row (`UserStreak` in `progress_models.py`); dates are integer
day numbers. -/
structure UserStreak where
  current_len : ℕ
  longest_len : ℕ
  last_day : Option ℤ
  deriving Repr, DecidableEq

/-- The row created lazily by `UserStreakService.initialize_streak`:
`current_len=0, longest_len=0, last_day=NULL`. -/
def initStreak : UserStreak :=
  { current_len := 0, longest_len := 0, last_day := none }

/-- `UserStreakService.check_and_update_streak` on a resolved (or lazily
created) row.  `has_activity` is the Daily Activity collaborator's answer to
whether the learner had qualifying activity on `activity_date`. -/
def check_and_update_streak (streak : UserStreak) (has_activity : Bool)
    (activity_date : ℤ) : UserStreak :=
  if has_activity = false then streak
  else
    match streak.last_day with
    | none =>
        { current_len := 1
          longest_len := max streak.longest_len 1
          last_day := some activity_date }
    | some last =>
        if activity_date = last then streak
        else if activity_date = last + 1 then
          { current_len := streak.current_len + 1
            longest_len := max streak.longest_len (streak.current_len + 1)
            last_day := some activity_date }
        else if activity_date < last then streak
        else
          { current_len := 1
            longest_len := max streak.longest_len 1
            last_day := some activity_date }

/-- `UserStreakService.break_streak`: `None` when no row exists for the
learner (nothing is created); otherwise zero out `current_len` only. -/
def break_streak (streak : Option UserStreak) : Option UserStreak :=
  match streak with
  | none => none
  | some s => some { s with current_len := 0 }

/-- Insert `x` into an ascending duplicate-free list, keeping it ascending
and duplicate-free. -/
def insSorted (x : ℤ) : List ℤ → List ℤ
  | [] => [x]
  | y :: ys =>
      if x < y then x :: y :: ys
      else if x = y then y :: ys
      else y :: insSorted x ys

/-- Python's `sorted(set(dates))`: the distinct dates in ascending order. -/
def dedupSort (dates : List ℤ) : List ℤ :=
  dates.foldr insSorted []

/-- The forward loop of `recalculate_streak`: walk the ascending date list,
growing the run counter on consecutive days and resetting it otherwise,
tracking the longest run seen. -/
def longestRunAux : List ℤ → Option ℤ → ℕ → ℕ → ℕ
  | [], _, _, longest => longest
  | d :: rest, previous_day, current, longest =>
      let cur : ℕ :=
        match previous_day with
        | none => 1
        | some p => if d = p + 1 then current + 1 else 1
      longestRunAux rest (some d) cur (max longest cur)

/-- The backward loop of `recalculate_streak`: walk the dates in descending
order counting how many match `expected - k`, stopping at the first gap. -/
def trailingRunAux : List ℤ → ℤ → ℕ → ℕ
  | [], _, k => k
  | d :: rest, expected, k =>
      if d = expected - k then trailingRunAux rest expected (k + 1) else k

/-- `UserStreakService.recalculate_streak` on a resolved (or lazily created)
row, given the learner's qualifying-activity dates (`active_dates` in the
source, before `sorted(set(...))`).  With no active dates the row is zeroed;
otherwise `longest_len` becomes the max of the longest consecutive run and
the stored `longest_len`, `last_day` the most recent active date,
`current_len` the run ending there, and `longest_len` is finally raised to
`current_len` if needed. -/
def recalculate_streak (streak : UserStreak) (active_dates_raw : List ℤ) :
    UserStreak :=
  let active_dates := dedupSort active_dates_raw
  if active_dates.isEmpty then
    { current_len := 0, longest_len := 0, last_day := none }
  else
    let longest := longestRunAux active_dates none 0 0
    let longest1 := max longest streak.longest_len
    let last := active_dates.getLastD 0
    let current_streak := trailingRunAux active_dates.reverse last 0
    { current_len := current_streak
      longest_len := max longest1 current_streak
      last_day := some last }

/-- One public mutation of a learner's streak row. -/
inductive StreakOp where
  | checkUpdate (has_activity : Bool) (activity_date : ℤ)
  | breakStreak
  | recalc (active_dates_raw : List ℤ)
  deriving Repr, DecidableEq

/-- Apply one streak operation to an existing row (the lazily created row
always exists by the time any of these mutate it). -/
def applyStreakOp (s : UserStreak) : StreakOp → UserStreak
  | .checkUpdate a d => check_and_update_streak s a d
  | .breakStreak => { s with current_len := 0 }
  | .recalc raw => recalculate_streak s raw

/-- Run a sequence of streak operations from a starting row. -/
def runStreakOps (s : UserStreak) (ops : List StreakOp) : UserStreak :=
  ops.foldl applyStreakOp s

/-- The aggregate returned by `SRCardService.get_user_stats`; the two means
are exact rationals. -/
structure UserStats where
  total_cards : ℕ
  due_cards : ℕ
  suspended_cards : ℕ
  new_cards : ℕ
  learning_cards : ℕ
  mature_cards : ℕ
  average_ease_factor : ℚ
  average_interval : ℚ
  deriving Repr, DecidableEq

/-- `SRCardService.get_user_stats` over the learner's card rows at time
`now`.  SQL `AVG` over an empty row set is `NULL`, which the source maps to
`0.0` via `float(avg or 0.0)`. -/
def get_user_stats (cards : List SRCard) (now : ℤ) : UserStats :=
  let nonSuspended := cards.filter (fun c => !c.suspended)
  { total_cards := cards.length
    due_cards :=
      ((cards.filter (fun c => !c.suspended)).filter
        (fun c => decide (c.due_at ≤ now))).length
    suspended_cards := (cards.filter (fun c => c.suspended)).length
    new_cards :=
      (cards.filter (fun c => decide (c.repetition = 0) && !c.suspended)).length
    learning_cards :=
      (cards.filter (fun c =>
        decide (0 < c.repetition) && decide (c.repetition < 3) &&
          !c.suspended)).length
    mature_cards :=
      (cards.filter (fun c => decide (3 ≤ c.repetition) && !c.suspended)).length
    average_ease_factor :=
      if nonSuspended.length = 0 then 0
      else (nonSuspended.map (fun c => c.ease_factor)).sum / nonSuspended.length
    average_interval :=
      if nonSuspended.length = 0 then 0
      else ((nonSuspended.map (fun c => c.interval_d)).sum : ℚ) /
        nonSuspended.length }

/-- Rounding an integer is the identity. -/
lemma rhe_intCast (n : ℤ) : rhe (n : ℚ) = n := by
  simp only [rhe, Int.floor_intCast, sub_self]
  norm_num

/-- `round(x, 2)` is the identity on exact multiples of `1/100`. -/
lemma round2_div_hundred (n : ℤ) : round2 ((n : ℚ) / 100) = (n : ℚ) / 100 := by
  rw [round2, div_mul_cancel₀ _ (by norm_num : (100 : ℚ) ≠ 0), rhe_intCast]

/-- Every ease factor the update rule can produce is an exact multiple of
`1/100` (as is the fresh card's `2.5 = 250/100`), so the hypothesis of the
ease-factor theorem holds for every reachable card. -/
lemma update_ef_hundredths (card : SRCard) (q now : ℤ) :
    ∃ n : ℤ, (update_card_after_review card q now).ease_factor = (n : ℚ) / 100 := by
  refine ⟨max 130 (rhe ((card.ease_factor +
    (1/10 - (5 - (max 0 (min 5 q) : ℤ)) *
      (2/25 + (5 - (max 0 (min 5 q) : ℤ)) * (1/50)))) * 100)), ?_⟩
  simp only [update_card_after_review, round2]
  push_cast
  rw [← max_div_div_right (by norm_num : (0:ℚ) ≤ 100)]
  norm_num

/-- C1: for a review of quality `q ∈ [0,5]` applied to a card with pre-update
state `(ease_factor, interval_d, repetition)`: a lapse (`q < 3`) resets
`repetition` and `interval_d` to 0; a success (`q ≥ 3`) yields interval 1
from `repetition = 0`, interval 6 from `repetition = 1`, and
`round(interval_d * ease_factor)` floored at 1 (with the pre-update ease
factor) from `repetition ≥ 2`, incrementing `repetition`; in both branches
`due_at = now + interval_d` days. -/
theorem update_card_interval_spec (card : SRCard) (q now : ℤ)
    (h0 : 0 ≤ q) (h5 : q ≤ 5) :
    (q < 3 →
      (update_card_after_review card q now).repetition = 0 ∧
      (update_card_after_review card q now).interval_d = 0) ∧
    (3 ≤ q →
      (update_card_after_review card q now).repetition = card.repetition + 1 ∧
      (card.repetition = 0 →
        (update_card_after_review card q now).interval_d = 1) ∧
      (card.repetition = 1 →
        (update_card_after_review card q now).interval_d = 6) ∧
      (2 ≤ card.repetition →
        (update_card_after_review card q now).interval_d =
          max 1 (rhe ((card.interval_d : ℚ) * card.ease_factor)))) ∧
    (update_card_after_review card q now).due_at =
      now + (update_card_after_review card q now).interval_d := by
  have hq : max 0 (min 5 q) = q := by omega
  by_cases h3 : 3 ≤ q
  · refine ⟨fun hlt => absurd h3 (by omega), fun _ => ?_, rfl⟩
    refine ⟨?_, fun hr0 => ?_, fun hr1 => ?_, fun hr2 => ?_⟩
    · simp [update_card_after_review, hq, h3]
    · simp [update_card_after_review, hq, h3, hr0]
    · simp [update_card_after_review, hq, h3, hr1]
    · have hne0 : ¬ card.repetition = 0 := by omega
      have hne1 : ¬ card.repetition = 1 := by omega
      simp [update_card_after_review, hq, h3, hne0, hne1]
  · refine ⟨fun _ => ?_, fun hge => absurd hge h3, rfl⟩
    constructor <;> simp [update_card_after_review, hq, h3]

/-- Witness for C1 at the spec's worked example (`quality = 4`,
`repetition = 2`). -/
theorem update_card_interval_spec_witness :
    (update_card_after_review ⟨5/2, 6, 2, 0, false⟩ 4 0).repetition = 2 + 1 ∧
    (update_card_after_review ⟨5/2, 6, 2, 0, false⟩ 4 0).interval_d =
      max 1 (rhe ((6 : ℚ) * (5/2))) :=
  ⟨((update_card_interval_spec ⟨5/2, 6, 2, 0, false⟩ 4 0 (by norm_num)
      (by norm_num)).2.1 (by norm_num)).1,
   ((update_card_interval_spec ⟨5/2, 6, 2, 0, false⟩ 4 0 (by norm_num)
      (by norm_num)).2.1 (by norm_num)).2.2.2 (by norm_num)⟩

/-- C2: for a review of quality `q ∈ [0,5]` on a card whose ease factor is an
exact multiple of `1/100` (every reachable card: the default is `2.5` and
`update_ef_hundredths` shows the rule only produces such values), the
post-review ease factor is `max 1.3 (ef + (0.1 - (5-q)*(0.08 + (5-q)*0.02)))`
with `ef` the pre-update ease factor — in the lapse branch as well; and the
spec's worked example `ef=2.5, interval_d=6, repetition=2, quality=4` yields
ease factor `2.5`, interval 15, repetition 3. -/
theorem update_card_ease_spec (card : SRCard) (q now : ℤ)
    (h0 : 0 ≤ q) (h5 : q ≤ 5)
    (hef : ∃ n : ℤ, card.ease_factor = (n : ℚ) / 100) :
    (update_card_after_review card q now).ease_factor =
      max (13/10)
        (card.ease_factor +
          (1/10 - (5 - (q : ℚ)) * (2/25 + (5 - (q : ℚ)) * (1/50)))) ∧
    update_card_after_review ⟨5/2, 6, 2, 0, false⟩ 4 0 =
      ⟨5/2, 15, 3, 15, false⟩ := by
  obtain ⟨n, hn⟩ := hef
  have hq : max 0 (min 5 q) = q := by omega
  constructor
  · simp only [update_card_after_review, hq]
    congr 1
    rw [hn]
    have hsum : (n : ℚ)/100 +
        (1/10 - (5 - (q : ℚ)) * (2/25 + (5 - (q : ℚ)) * (1/50))) =
        ((n + 10 - (5 - q) * (8 + (5 - q) * 2) : ℤ) : ℚ) / 100 := by
      push_cast
      ring
    rw [hsum, round2_div_hundred]
  · norm_num [update_card_after_review, rhe, round2]

/-- Witness for C2 at the spec's worked example. -/
theorem update_card_ease_spec_witness :
    (update_card_after_review ⟨5/2, 6, 2, 0, false⟩ 4 0).ease_factor =
      max (13/10)
        ((5/2 : ℚ) +
          (1/10 - (5 - (4 : ℚ)) * (2/25 + (5 - (4 : ℚ)) * (1/50)))) :=
  (update_card_ease_spec ⟨5/2, 6, 2, 0, false⟩ 4 0 (by norm_num) (by norm_num)
    ⟨250, by norm_num⟩).1

/-- C7: any successful `review()` leaves the card's ease factor at least 1.3,
for every quality accepted by the validation and every card state (hence
also after arbitrarily many repeated minimum-quality reviews). -/
theorem review_ease_floor (card : SRCard) (q now : ℤ) (c : SRCard)
    (r : SRReview) (h : create_review card q now = .ok (c, r)) :
    13/10 ≤ c.ease_factor := by
  by_cases hq : q < 0 ∨ 5 < q
  · simp [create_review, hq] at h
  · simp only [create_review, hq, if_false, Except.ok.injEq, Prod.mk.injEq] at h
    rw [← h.1]
    simp only [update_card_after_review]
    exact le_max_left _ _

/-- Witness for C7: a minimum-quality review of a fresh card. -/
theorem review_ease_floor_witness :
    (13 : ℚ)/10 ≤ (update_card_after_review (freshCard 0) 0 0).ease_factor :=
  review_ease_floor (freshCard 0) 0 0 (update_card_after_review (freshCard 0) 0 0)
    { quality := 0
      prev_interval := (freshCard 0).interval_d
      new_interval := (update_card_after_review (freshCard 0) 0 0).interval_d
      new_ef := (update_card_after_review (freshCard 0) 0 0).ease_factor
      reviewed_at := 0 }
    (by simp [create_review])

/-- C5: every successful `review()` returns a log row whose
`new_interval`/`new_ef` equal the updated card's `interval_d`/`ease_factor`
and whose `prev_interval` is the card's `interval_d` captured before the
mutation. -/
theorem review_log_round_trip (card : SRCard) (q now : ℤ) (c : SRCard)
    (r : SRReview) (h : create_review card q now = .ok (c, r)) :
    r.new_interval = c.interval_d ∧ r.new_ef = c.ease_factor ∧
    r.prev_interval = card.interval_d := by
  by_cases hq : q < 0 ∨ 5 < q
  · simp [create_review, hq] at h
  · simp only [create_review, hq, if_false, Except.ok.injEq, Prod.mk.injEq] at h
    rw [← h.1, ← h.2]
    exact ⟨rfl, rfl, rfl⟩

/-- Witness for C5: a quality-5 review of a fresh card. -/
theorem review_log_round_trip_witness :
    (SRReview.mk 5 (freshCard 0).interval_d
        (update_card_after_review (freshCard 0) 5 0).interval_d
        (update_card_after_review (freshCard 0) 5 0).ease_factor 0).new_interval =
      (update_card_after_review (freshCard 0) 5 0).interval_d ∧
    (SRReview.mk 5 (freshCard 0).interval_d
        (update_card_after_review (freshCard 0) 5 0).interval_d
        (update_card_after_review (freshCard 0) 5 0).ease_factor 0).new_ef =
      (update_card_after_review (freshCard 0) 5 0).ease_factor ∧
    (SRReview.mk 5 (freshCard 0).interval_d
        (update_card_after_review (freshCard 0) 5 0).interval_d
        (update_card_after_review (freshCard 0) 5 0).ease_factor 0).prev_interval =
      (freshCard 0).interval_d :=
  review_log_round_trip (freshCard 0) 5 0
    (update_card_after_review (freshCard 0) 5 0)
    (SRReview.mk 5 (freshCard 0).interval_d
      (update_card_after_review (freshCard 0) 5 0).interval_d
      (update_card_after_review (freshCard 0) 5 0).ease_factor 0)
    (by simp [create_review])

/-- C6: the card update and the log append are NOT atomic as a unit: the
commit inside `update_card_after_review` produces a durable state in which
the card has been updated but no review-log row exists, so a failure before
the later commit (the one inside the first `increment_activity` call, which
persists the flushed log row) leaves the card updated with no matching log
entry.  Shown at a concrete input: a fresh card reviewed with quality 5. -/
theorem create_review_commit_gap :
    ∃ s ∈ create_review_commits (freshCard 0) [] 5 0,
      s.card ≠ freshCard 0 ∧ s.reviews = [] := by
  refine ⟨{ card := update_card_after_review (freshCard 0) 5 0, reviews := [] },
    ?_, ?_, rfl⟩
  · simp [create_review_commits]
  · intro hEq
    have hiv := congrArg SRCard.interval_d hEq
    simp [update_card_after_review, freshCard] at hiv

/-- C3: `check_and_update_streak` implements exactly this case analysis:
no qualifying activity, a same-day repeat, or an out-of-order earlier date
leave the state unchanged (idempotence, no backfill rewrites); a first-ever
activity starts a streak of 1 and raises `longest_len` to at least 1; a
next-day activity increments the streak and raises `longest_len` to at
least the new length; a gap restarts the streak at 1, leaving `longest_len`
unchanged unless it was 0. -/
theorem check_and_update_streak_cases (s : UserStreak) (d : ℤ) :
    (check_and_update_streak s false d = s) ∧
    (∀ last, s.last_day = some last → d = last →
      check_and_update_streak s true d = s) ∧
    (∀ last, s.last_day = some last → d < last →
      check_and_update_streak s true d = s) ∧
    (s.last_day = none →
      check_and_update_streak s true d =
        { current_len := 1, longest_len := max s.longest_len 1,
          last_day := some d }) ∧
    (∀ last, s.last_day = some last → d = last + 1 →
      check_and_update_streak s true d =
        { current_len := s.current_len + 1,
          longest_len := max s.longest_len (s.current_len + 1),
          last_day := some d }) ∧
    (∀ last, s.last_day = some last → last + 1 < d →
      check_and_update_streak s true d =
        { current_len := 1, longest_len := max s.longest_len 1,
          last_day := some d }) := by
  refine ⟨rfl, fun last hl hd => ?_, fun last hl hd => ?_, fun hl => ?_,
    fun last hl hd => ?_, fun last hl hd => ?_⟩
  · simp [check_and_update_streak, hl, hd]
  · have h1 : ¬ d = last := by omega
    simp [check_and_update_streak, hl, h1, hd, show ¬ d = last + 1 by omega]
  · simp [check_and_update_streak, hl]
  · simp [check_and_update_streak, hl, hd, show ¬ last + 1 = last by omega]
  · have h1 : ¬ d = last := by omega
    have h2 : ¬ d = last + 1 := by omega
    have h3 : ¬ d < last := by omega
    simp [check_and_update_streak, hl, h1, h2, h3]

/-- Witness for C3: a next-day activity on a streak of 2 with record 5. -/
theorem check_and_update_streak_cases_witness :
    check_and_update_streak
        { current_len := 2, longest_len := 5, last_day := some 10 } true 11 =
      { current_len := 3, longest_len := 5, last_day := some 11 } := by
  have h := ((check_and_update_streak_cases
    { current_len := 2, longest_len := 5, last_day := some 10 }
    11).2.2.2.2.1) 10 rfl (by norm_num)
  simpa using h

/-- Each public streak mutation preserves `current_len ≤ longest_len`. -/
lemma applyStreakOp_inv (s : UserStreak) (op : StreakOp)
    (h : s.current_len ≤ s.longest_len) :
    (applyStreakOp s op).current_len ≤ (applyStreakOp s op).longest_len := by
  cases op with
  | checkUpdate a d =>
      cases a with
      | false => simpa [applyStreakOp, check_and_update_streak] using h
      | true =>
          cases hl : s.last_day with
          | none =>
              simp only [applyStreakOp, check_and_update_streak,
                Bool.true_eq_false, if_false, hl]
              exact le_max_right _ _
          | some last =>
              simp only [applyStreakOp, check_and_update_streak,
                Bool.true_eq_false, if_false, hl]
              split_ifs with h1 h2 h3
              · exact h
              · exact le_max_right _ _
              · exact h
              · exact le_max_right _ _
  | breakStreak => simp [applyStreakOp]
  | recalc raw =>
      simp only [applyStreakOp, recalculate_streak]
      split_ifs with he
      · simp
      · exact le_max_right _ _

/-- C4: starting from the lazily created all-zero row, any sequence of
`check_and_update_streak` (with arbitrary activity answers and dates),
`break_streak` and `recalculate_streak` operations keeps
`current_len ≤ longest_len`. -/
theorem streak_longest_ge_current (ops : List StreakOp) :
    (runStreakOps initStreak ops).current_len ≤
      (runStreakOps initStreak ops).longest_len := by
  have general : ∀ (ops' : List StreakOp) (s : UserStreak),
      s.current_len ≤ s.longest_len →
      (runStreakOps s ops').current_len ≤ (runStreakOps s ops').longest_len := by
    intro ops'
    induction ops' with
    | nil => intro s hs; exact hs
    | cons op rest ih =>
        intro s hs
        exact ih (applyStreakOp s op) (applyStreakOp_inv s op hs)
  exact general ops initStreak (Nat.le_refl 0)

/-- C8 counterexample: with a stored `longest_len` of 5 and active dates
2024-01-01, 01-02, 01-03 and 01-10 (day numbers 738886..738888, 738895,
whose longest consecutive run has length 3), `recalculate_streak` leaves
`longest_len` at 5 — it never lowers a stored `longest_len` to the
recomputed longest run. -/
theorem recalculate_streak_keeps_stale_longest :
    (recalculate_streak
        { current_len := 0, longest_len := 5, last_day := none }
        [738886, 738887, 738888, 738895]).longest_len = 5 ∧
    ¬ (recalculate_streak
        { current_len := 0, longest_len := 5, last_day := none }
        [738886, 738887, 738888, 738895]).longest_len = 3 := by
  decide

/-- C8 (amended): `recalculate_streak` sets `current_len` to the run ending
at the most recent active date and `longest_len` to the maximum of the
stored `longest_len`, the longest consecutive run, and the new
`current_len`; on active dates 2024-01-01, 01-02, 01-03, 01-10 it yields
`longest_len = 3` and `current_len = 1` whenever the stored `longest_len`
is at most 3. -/
theorem recalculate_streak_example (s : UserStreak) (h : s.longest_len ≤ 3) :
    recalculate_streak s [738886, 738887, 738888, 738895] =
      { current_len := 1, longest_len := 3, last_day := some 738895 } := by
  have hd : dedupSort [738886, 738887, 738888, 738895] =
      [738886, 738887, 738888, 738895] := by decide
  have h1 : longestRunAux [738886, 738887, 738888, 738895] none 0 0 = 3 := by
    decide
  have h2 : List.reverse [738886, 738887, 738888, (738895 : ℤ)] =
      [738895, 738888, 738887, 738886] := by decide
  have h3 : trailingRunAux [738895, 738888, 738887, 738886] 738895 0 = 1 := by
    decide
  have h4 : List.getLastD [738886, 738887, 738888, (738895 : ℤ)] 0 = 738895 := by
    decide
  simp only [recalculate_streak, hd, h1, h2, h3, h4, List.isEmpty_cons,
    Bool.false_eq_true, if_false, UserStreak.mk.injEq]
  exact ⟨trivial, by omega, trivial⟩

/-- Witness for the amended C8 at the lazily created all-zero row. -/
theorem recalculate_streak_example_witness :
    recalculate_streak initStreak [738886, 738887, 738888, 738895] =
      { current_len := 1, longest_len := 3, last_day := some 738895 } :=
  recalculate_streak_example initStreak (by decide)

/-- C9 counterexample: a single suspended card with `repetition = 0` is not
counted in `new_cards` (the code also filters `suspended == False` there),
although the claim counts every card with `repetition_count == 0`. -/
theorem get_user_stats_new_excludes_suspended :
    ¬ ((get_user_stats
        [{ ease_factor := 5/2, interval_d := 0, repetition := 0,
           due_at := 0, suspended := true }] 0).new_cards =
      List.countP (fun c : SRCard => decide (c.repetition = 0))
        ([{ ease_factor := 5/2, interval_d := 0, repetition := 0,
            due_at := 0, suspended := true }] : List SRCard)) := by
  decide

/-- C9 (amended): `get_user_stats` computes the total count; the due count
(non-suspended with `due_at ≤ now`); the suspended count; the new, learning
and mature counts, each restricted to non-suspended cards
(`repetition = 0`, `0 < repetition < 3`, `repetition ≥ 3` respectively);
and the mean ease factor and mean interval over non-suspended cards, with 0
when there are none. -/
theorem get_user_stats_spec (cards : List SRCard) (now : ℤ) :
    (get_user_stats cards now).total_cards = cards.length ∧
    (get_user_stats cards now).due_cards =
      cards.countP (fun c => decide (c.due_at ≤ now) && !c.suspended) ∧
    (get_user_stats cards now).suspended_cards =
      cards.countP (fun c => c.suspended) ∧
    (get_user_stats cards now).new_cards =
      cards.countP (fun c => decide (c.repetition = 0) && !c.suspended) ∧
    (get_user_stats cards now).learning_cards =
      cards.countP (fun c =>
        decide (0 < c.repetition) && decide (c.repetition < 3) &&
          !c.suspended) ∧
    (get_user_stats cards now).mature_cards =
      cards.countP (fun c => decide (3 ≤ c.repetition) && !c.suspended) ∧
    (cards.countP (fun c => !c.suspended) = 0 →
      (get_user_stats cards now).average_ease_factor = 0 ∧
      (get_user_stats cards now).average_interval = 0) ∧
    (cards.countP (fun c => !c.suspended) ≠ 0 →
      (get_user_stats cards now).average_ease_factor =
        ((cards.filter (fun c => !c.suspended)).map
          (fun c => c.ease_factor)).sum /
          (cards.countP (fun c => !c.suspended) : ℚ) ∧
      (get_user_stats cards now).average_interval =
        (((cards.filter (fun c => !c.suspended)).map
          (fun c => c.interval_d)).sum : ℚ) /
          (cards.countP (fun c => !c.suspended) : ℚ)) := by
  refine ⟨rfl, ?_, ?_, ?_, ?_, ?_, ?_, ?_⟩
  · simp [get_user_stats, List.countP_eq_length_filter, List.filter_filter]
  · simp [get_user_stats, List.countP_eq_length_filter]
  · simp [get_user_stats, List.countP_eq_length_filter]
  · simp [get_user_stats, List.countP_eq_length_filter]
  · simp [get_user_stats, List.countP_eq_length_filter]
  · intro hz
    rw [List.countP_eq_length_filter] at hz
    constructor <;> simp [get_user_stats, hz]
  · intro hz
    rw [List.countP_eq_length_filter] at hz
    constructor <;> simp [get_user_stats, hz, List.countP_eq_length_filter]

/-- Witness for the amended C9 on an empty card set. -/
theorem get_user_stats_spec_witness :
    (get_user_stats [] 0).average_ease_factor = 0 ∧
    (get_user_stats [] 0).average_interval = 0 :=
  (get_user_stats_spec [] 0).2.2.2.2.2.2.1 rfl

/-- C10: `break_streak` zeroes `current_len`, leaves `longest_len` and
`last_day` unchanged when the learner's row exists, and returns not-found
without creating state when it does not. -/
theorem break_streak_spec (s : UserStreak) :
    break_streak (some s) =
      some { current_len := 0, longest_len := s.longest_len,
             last_day := s.last_day } ∧
    break_streak (none : Option UserStreak) = none :=
  ⟨rfl, rfl⟩
